import Mathlib

/-!
Verification of the sparse-recovery core of the Optimization-Algorithms
repository: the group proximal operator (prox12norm), the accelerated
proximal gradient solver (apgd), the bisection-tuned constrained solver
(lscgnm) and the per-block driver (apgd_driver).

Modelling conventions.

Numpy double arithmetic is idealised as real arithmetic (type ℝ), except
in the one place where the source genuinely exercises IEEE special
values: the shrinkage-factor computation of prox12norm, where the source
divides by a group norm that can be zero (the notebook itself records
the resulting RuntimeWarning).  That computation is modelled with an
explicit value type FloatVal carrying the two infinities and NaN, with
the numpy semantics of true_divide, subtraction and np.maximum (which
propagates NaN).  The real-valued operator prox12normR, used when the
operator is composed into the solvers, agrees with the float-faithful
one whenever the threshold is positive (lemma prox12norm_pos_agree);
every threshold the solvers pass is positive, so the idealisation is
justified exactly where it is used.

One-dimensional numpy arrays are lists of reals; matrices are lists of
rows.  Dimension agreement (rectangularity, matching lengths) is a
precondition of the source and is assumed where needed.

The two unbounded while-loops of lscgnm (gamma doubling, bisection) are
embedded with an explicit fuel parameter; the result diverge records
that the loop was still running when the fuel ran out, so a result of
diverge for every fuel value proves the source loops forever.
-/

noncomputable section

/-- Sum of two vectors, numpy elementwise +. -/
def addv (u v : List ℝ) : List ℝ := List.zipWith (· + ·) u v

/-- Difference of two vectors, numpy elementwise -. -/
def subv (u v : List ℝ) : List ℝ := List.zipWith (· - ·) u v

/-- Scalar times vector, numpy broadcasting. -/
def smulv (c : ℝ) (v : List ℝ) : List ℝ := v.map (fun a => c * a)

/-- Dot product of two vectors of equal length. -/
def dotv (u v : List ℝ) : ℝ := (List.zipWith (· * ·) u v).sum

/-- Euclidean norm, np.linalg.norm of a 1-D array. -/
def norm2 (v : List ℝ) : ℝ := Real.sqrt ((v.map (fun a => a * a)).sum)

/-- Matrix (list of rows) applied to a vector, numpy A @ x. -/
def matVec (A : List (List ℝ)) (x : List ℝ) : List ℝ := A.map (fun r => dotv r x)

/-- Matrix product, numpy A @ B, entry (i,j) = row i of A dot column j of B. -/
def matMul (A B : List (List ℝ)) : List (List ℝ) :=
  A.map (fun r => B.transpose.map (fun c => dotv r c))

/-- Column count of a rectangular matrix, numpy A.shape[1] (rows assumed
of equal length, at least one row). -/
def numCols (A : List (List ℝ)) : ℕ := (A.headD []).length

/-- np.linalg.norm(M, ord=2): the spectral norm, the supremum of the
Euclidean norms of M @ v over unit vectors v of matching length. -/
def spectralNorm (M : List (List ℝ)) : ℝ :=
  sSup ((fun v => norm2 (matVec M v)) '' {v : List ℝ | v.length = numCols M ∧ norm2 v = 1})

/-- Source grad_least_squares: the gradient A.T @ (A @ x - y) of the
squared-residual objective. -/
def grad_least_squares (A : List (List ℝ)) (x y : List ℝ) : List ℝ :=
  matVec A.transpose (subv (matVec A x) y)

/-- IEEE double value as produced by the factor computation inside
prox12norm: a finite real, one of the infinities, or NaN. -/
inductive FloatVal where
  | fin (x : ℝ)
  | pinf
  | ninf
  | nan

namespace FloatVal

/-- numpy true_divide of a finite numerator by a finite non-negative
denominator (group norms are +0.0 when zero): finite quotient when the
denominator is nonzero, otherwise a signed infinity, or NaN for 0/0. -/
def fdiv (x y : ℝ) : FloatVal :=
  if y ≠ 0 then .fin (x / y)
  else if 0 < x then .pinf
  else if x < 0 then .ninf
  else .nan

/-- IEEE subtraction 1 - v for the source expression 1 - gamma / norm. -/
def oneSub : FloatVal → FloatVal
  | .fin x => .fin (1 - x)
  | .pinf => .ninf
  | .ninf => .pinf
  | .nan => .nan

/-- np.maximum(v, 0): NaN-propagating maximum with zero. -/
def max0 : FloatVal → FloatVal
  | .fin x => .fin (max x 0)
  | .pinf => .pinf
  | .ninf => .fin 0
  | .nan => .nan

/-- IEEE product factor * entry for a finite entry e. -/
def scale : FloatVal → ℝ → FloatVal
  | .fin c, e => .fin (c * e)
  | .pinf, e => if 0 < e then .pinf else if e < 0 then .ninf else .nan
  | .ninf, e => if 0 < e then .ninf else if e < 0 then .pinf else .nan
  | .nan, _ => .nan

end FloatVal

/-- The source reshape(-1, d): cut a vector into consecutive groups of
size d.  Faithful to numpy exactly when d ≥ 1 and d divides the length,
which is a documented invariant of the data model (numpy raises a
ValueError otherwise). -/
def toGroups (d : ℕ) : List ℝ → List (List ℝ)
  | [] => []
  | a :: l => (a :: l.take (d - 1)) :: toGroups d (l.drop (d - 1))
  termination_by l => l.length
  decreasing_by simp [List.length_drop]; omega

/-- The shrinkage factor np.maximum(1 - gamma / norm, 0) of one group,
with the numpy IEEE semantics of each step. -/
def proxFactor (gamma nrm : ℝ) : FloatVal :=
  FloatVal.max0 (FloatVal.oneSub (FloatVal.fdiv gamma nrm))

/-- Image of one coefficient group under the proximal shrinkage
factor * group. -/
def proxGroup (gamma : ℝ) (g : List ℝ) : List FloatVal :=
  g.map (FloatVal.scale (proxFactor gamma (norm2 g)))

/-- Source prox12norm with the float semantics of the factor: reshape
into groups of d, scale each group by max(1 - gamma/norm, 0), flatten. -/
def prox12norm (x : List ℝ) (gamma : ℝ) (d : ℕ) : List FloatVal :=
  ((toGroups d x).map (proxGroup gamma)).flatten

/-- Real-valued idealisation of prox12norm used where the operator is
composed into apgd by the solvers; prox12norm_pos_agree shows it matches
the float-faithful prox12norm for every positive threshold, and the
solvers only ever pass positive thresholds. -/
def prox12normR (x : List ℝ) (gamma : ℝ) (d : ℕ) : List ℝ :=
  ((toGroups d x).map (fun g => g.map (fun e => max (1 - gamma / norm2 g) 0 * e))).flatten

/-- Flattening the groups recovers the vector. -/
theorem toGroups_flatten (d : ℕ) (x : List ℝ) : (toGroups d x).flatten = x := by
  induction x using toGroups.induct d with
  | case1 => simp [toGroups]
  | case2 a l ih =>
    rw [toGroups]
    simp only [List.flatten_cons, ih]
    simp [List.cons_append, List.take_append_drop]

/-- A vector has Euclidean norm zero exactly when every entry is zero. -/
theorem norm2_eq_zero_iff (v : List ℝ) : norm2 v = 0 ↔ ∀ a ∈ v, a = 0 := by
  have hnn : ∀ w : List ℝ, 0 ≤ (w.map (fun a => a * a)).sum := by
    intro w
    induction w with
    | nil => simp
    | cons b t ih => simpa using add_nonneg (mul_self_nonneg b) ih
  have hsum : ∀ w : List ℝ, (w.map (fun a => a * a)).sum = 0 ↔ ∀ a ∈ w, a = 0 := by
    intro w
    induction w with
    | nil => simp
    | cons b t ih =>
      simp only [List.map_cons, List.sum_cons, List.mem_cons]
      constructor
      · intro h
        have hb : b * b = 0 := by
          have := hnn t
          nlinarith [mul_self_nonneg b]
        have ht : (t.map (fun a => a * a)).sum = 0 := by
          nlinarith [mul_self_nonneg b, hnn t]
        refine fun a ha => ha.elim (fun h1 => ?_) (fun h2 => ih.mp ht a h2)
        subst h1
        exact mul_self_eq_zero.mp hb
      · intro h
        have hb : b = 0 := h b (Or.inl rfl)
        have ht : (t.map (fun a => a * a)).sum = 0 := ih.mpr (fun a ha => h a (Or.inr ha))
        simp [hb, ht]
  unfold norm2
  rw [Real.sqrt_eq_zero (hnn v)]
  exact hsum v

/-- Norm of a one-entry vector. -/
theorem norm2_single (a : ℝ) : norm2 [a] = |a| := by
  unfold norm2
  simp only [List.map_cons, List.map_nil, List.sum_cons, List.sum_nil, add_zero]
  rw [← sq, Real.sqrt_sq_eq_abs]

/-- For a positive threshold the float-faithful operator agrees with the
real-valued idealisation: division by a zero norm yields +inf, the
factor collapses to 0, and a zero-norm group (all entries zero) is sent
to zero either way. -/
theorem prox12norm_pos_agree (x : List ℝ) (gamma : ℝ) (d : ℕ) (hg : 0 < gamma) :
    prox12norm x gamma d = (prox12normR x gamma d).map FloatVal.fin := by
  unfold prox12norm prox12normR
  rw [List.map_flatten, List.map_map]
  congr 1
  apply List.map_congr_left
  intro g _
  by_cases hz : norm2 g = 0
  · have hall : ∀ a ∈ g, a = 0 := (norm2_eq_zero_iff g).mp hz
    unfold proxGroup proxFactor FloatVal.fdiv
    simp only [hz, Function.comp]
    rw [if_neg (by simp), if_pos hg]
    simp only [FloatVal.oneSub, FloatVal.max0]
    rw [List.map_map]
    apply List.map_congr_left
    intro a ha
    rw [hall a ha]
    simp [FloatVal.scale]
  · unfold proxGroup proxFactor FloatVal.fdiv
    rw [if_pos hz]
    simp [FloatVal.oneSub, FloatVal.max0, FloatVal.scale, Function.comp]

/-- One pass of the apgd loop body on the state (x, z, t): gradient step
at z, proximal step with threshold gamma * step, momentum update of t,
extrapolation of z.  The step size is the fixed 1 / L of the source. -/
def apgdStep (gradf : List ℝ → List ℝ) (proxf : List ℝ → ℝ → List ℝ)
    (gamma L : ℝ) : List ℝ × List ℝ × ℝ → List ℝ × List ℝ × ℝ
  | (x, z, t) =>
    let step := 1 / L
    let xn := proxf (subv z (smulv step (gradf z))) (gamma * step)
    let tn := (1 + Real.sqrt (1 + 4 * t ^ 2)) / 2
    (xn, addv xn (smulv ((t - 1) / tn) (subv xn x)), tn)

/-- The for-loop of apgd: n iterations remain, i is the current loop
index.  Each iteration computes the candidate from the state via
apgdStep, returns (x_next, i) as soon as the convergence test
norm(x_next - x) <= tol passes, and otherwise advances the state; when
the loop is exhausted the source falls through to return (x, maxit + 1). -/
def apgdGo (gradf : List ℝ → List ℝ) (proxf : List ℝ → ℝ → List ℝ)
    (gamma L tol : ℝ) (maxit : ℕ) : List ℝ × List ℝ × ℝ → ℕ → ℕ → List ℝ × ℕ
  | (x, _, _), _, 0 => (x, maxit + 1)
  | (x, z, t), i, n + 1 =>
    let s := apgdStep gradf proxf gamma L (x, z, t)
    if norm2 (subv s.1 x) ≤ tol then (s.1, i)
    else apgdGo gradf proxf gamma L tol maxit s (i + 1) n

/-- Source apgd: accelerated proximal gradient descent from x0 with
z = x0.copy(), t = 1, running for at most maxit iterations.  Returns
the converged iterate with its 0-based iteration index, or the last
iterate with the off-by-one sentinel maxit + 1. -/
def apgd (gradf : List ℝ → List ℝ) (proxf : List ℝ → ℝ → List ℝ)
    (gamma L : ℝ) (x : List ℝ) (tol : ℝ) (maxit : ℕ) : List ℝ × ℕ :=
  apgdGo gradf proxf gamma L tol maxit (x, x, 1) 0 maxit

/-- A Python numeric literal: an int or a float.  Used to model the
declared default maxit = 1e5 of apgd, which is a float literal. -/
inductive PyNum where
  | int (n : ℤ)
  | float (x : ℝ)

/-- CPython semantics of range(maxit) in the apgd loop header: a float
argument raises TypeError before any iteration is produced; an int
argument yields max(n, 0) iterations. -/
def pyRangeLen : PyNum → Except String ℕ
  | .int n => .ok n.toNat
  | .float _ => .error "TypeError: float object cannot be interpreted as an integer"

/-- The default value of the maxit parameter in the source signature
apgd(gradf, proxf, gamma, L, x, tol=1e-6, maxit=1e5): the float 1e5. -/
def apgd_default_maxit : PyNum := .float 100000

/-- Calling apgd with a Python numeric maxit: the loop header
range(maxit) type-checks the argument first, so a float maxit fails
with TypeError before the gradient or proximal operator is ever
evaluated, and an int maxit runs the solver. -/
def apgdPy (gradf : List ℝ → List ℝ) (proxf : List ℝ → ℝ → List ℝ)
    (gamma L : ℝ) (x : List ℝ) (tol : ℝ) (maxit : PyNum) : Except String (List ℝ × ℕ) :=
  (pyRangeLen maxit).map (fun m => apgd gradf proxf gamma L x tol m)

/-- If the convergence test fails at every one of the n remaining
iterations (measured along the apgdStep trajectory from the current
state), the loop runs to exhaustion and falls through to the
(x, maxit + 1) return. -/
theorem apgdGo_noconv (gradf : List ℝ → List ℝ) (proxf : List ℝ → ℝ → List ℝ)
    (gamma L tol : ℝ) (maxit : ℕ) (s : List ℝ × List ℝ × ℝ) (i n : ℕ)
    (h : ∀ j < n, tol < norm2 (subv
      ((apgdStep gradf proxf gamma L)^[j + 1] s).1
      ((apgdStep gradf proxf gamma L)^[j] s).1)) :
    apgdGo gradf proxf gamma L tol maxit s i n =
      (((apgdStep gradf proxf gamma L)^[n] s).1, maxit + 1) := by
  induction n generalizing s i with
  | zero =>
    obtain ⟨x, z, t⟩ := s
    simp [apgdGo]
  | succ n ih =>
    obtain ⟨x, z, t⟩ := s
    have h0 := h 0 (Nat.succ_pos n)
    simp only [Function.iterate_one, Function.iterate_zero, id_eq] at h0
    have h1 : tol < norm2 (subv (apgdStep gradf proxf gamma L (x, z, t)).1 x) := h0
    rw [show apgdGo gradf proxf gamma L tol maxit (x, z, t) i (n + 1) =
        (if norm2 (subv (apgdStep gradf proxf gamma L (x, z, t)).1 x) ≤ tol
         then ((apgdStep gradf proxf gamma L (x, z, t)).1, i)
         else apgdGo gradf proxf gamma L tol maxit
           (apgdStep gradf proxf gamma L (x, z, t)) (i + 1) n) from rfl]
    rw [if_neg (not_le.mpr h1)]
    rw [ih (apgdStep gradf proxf gamma L (x, z, t)) (i + 1) ?_]
    · rw [← Function.iterate_succ_apply]
    · intro j hj
      have := h (j + 1) (by omega)
      simpa [Function.iterate_succ_apply] using this

/-- Claim C3: on every input whose convergence test
norm(x_next - x) <= tol never holds within the iteration cap, apgd
returns the last iterate together with the sentinel count maxit + 1; in
particular with maxit = 0 the loop body never runs, the count is 1 and
the returned vector is the caller-supplied initial iterate (the maxit=0
instance is the trajectory at iterate 0, namely x0 itself). -/
theorem claim_C3_maxit_sentinel (gradf : List ℝ → List ℝ) (proxf : List ℝ → ℝ → List ℝ)
    (gamma L : ℝ) (x0 : List ℝ) (tol : ℝ) (maxit : ℕ)
    (h : ∀ j < maxit, tol < norm2 (subv
      ((apgdStep gradf proxf gamma L)^[j + 1] (x0, x0, 1)).1
      ((apgdStep gradf proxf gamma L)^[j] (x0, x0, 1)).1)) :
    apgd gradf proxf gamma L x0 tol maxit =
      (((apgdStep gradf proxf gamma L)^[maxit] (x0, x0, 1)).1, maxit + 1) := by
  unfold apgd
  exact apgdGo_noconv gradf proxf gamma L tol maxit (x0, x0, 1) 0 maxit h

/-- Witness for C3 at maxit = 0: the hypothesis is vacuous, and the
solver returns the unchanged initial iterate with count 0 + 1 = 1. -/
theorem claim_C3_witness :
    apgd (fun v => v) (fun v _ => v) 1 1 [(0 : ℝ)] 1 0 = ([(0 : ℝ)], 1) := by
  have := claim_C3_maxit_sentinel (fun v => v) (fun v _ => v) 1 1 [(0 : ℝ)] 1 0
    (fun j hj => absurd hj (Nat.not_lt_zero j))
  simpa using this

/-- Claim C10: apgd iterates via range(maxit), and its own declared
default maxit = 1e5 is a float literal, so a call relying on that
default raises TypeError in the loop header, before any gradient or
proximal evaluation; callers must pass an integer maxit themselves
(and the callers in the repository do: apgd_driver passes 10**5 and
lscgnm forwards its gnrls_maxit argument). -/
theorem claim_C10_float_default (gradf : List ℝ → List ℝ) (proxf : List ℝ → ℝ → List ℝ)
    (gamma L : ℝ) (x : List ℝ) (tol : ℝ) :
    apgdPy gradf proxf gamma L x tol apgd_default_maxit =
      .error "TypeError: float object cannot be interpreted as an integer" := by
  rfl

/-- A vector whose length equals the positive group size is a single
group. -/
theorem toGroups_of_length (d : ℕ) (x : List ℝ) (hd : 0 < d) (hx : x.length = d) :
    toGroups d x = [x] := by
  cases x with
  | nil => simp at hx; omega
  | cons a l =>
    rw [toGroups]
    have hl : l.length = d - 1 := by simp at hx; omega
    rw [show d - 1 = l.length from hl.symm, List.take_length, List.drop_length]
    simp [toGroups]

/-- For a positive threshold the shrinkage factor of every group is a
finite real: division by a positive norm is finite, and division by a
zero norm gives +inf, which 1 - v maps to -inf and np.maximum(v, 0)
maps to the finite 0. -/
theorem proxFactor_fin_of_pos (gamma nrm : ℝ) (hg : 0 < gamma) :
    ∃ c : ℝ, proxFactor gamma nrm = FloatVal.fin c := by
  unfold proxFactor FloatVal.fdiv
  by_cases hz : nrm = 0
  · rw [hz, if_neg (by simp), if_pos hg]
    exact ⟨0, rfl⟩
  · rw [if_pos hz]
    exact ⟨max (1 - gamma / nrm) 0, rfl⟩

/-- Claim C7: for a vector that is a single group of positive norm r,
prox12norm with threshold gamma returns the zero vector whenever
gamma >= r (the boundary gamma = r included, since max(1 - 1, 0) = 0),
returns the input scaled by 1 - gamma / r whenever gamma < r, and in
both cases preserves the length of the input. -/
theorem claim_C7_single_group (x : List ℝ) (d : ℕ) (gamma : ℝ)
    (hd : 0 < d) (hx : x.length = d) (hr : 0 < norm2 x) :
    (norm2 x ≤ gamma → prox12norm x gamma d = List.replicate x.length (FloatVal.fin 0)) ∧
    (gamma < norm2 x →
      prox12norm x gamma d = x.map (fun e => FloatVal.fin ((1 - gamma / norm2 x) * e))) ∧
    (prox12norm x gamma d).length = x.length := by
  have hgr : toGroups d x = [x] := toGroups_of_length d x hd hx
  have hone : prox12norm x gamma d = proxGroup gamma x := by
    unfold prox12norm
    rw [hgr]
    simp
  have hfac : proxFactor gamma (norm2 x) = FloatVal.fin (max (1 - gamma / norm2 x) 0) := by
    unfold proxFactor FloatVal.fdiv
    rw [if_pos (ne_of_gt hr)]
    simp [FloatVal.oneSub, FloatVal.max0]
  refine ⟨fun hge => ?_, fun hlt => ?_, ?_⟩
  · have h0 : max (1 - gamma / norm2 x) 0 = 0 := max_eq_right (by
      have h1 : 1 ≤ gamma / norm2 x := (one_le_div hr).mpr hge
      linarith)
    rw [hone]
    unfold proxGroup
    rw [hfac, h0]
    calc x.map (FloatVal.scale (FloatVal.fin 0))
        = x.map (fun _ => FloatVal.fin 0) := by
          apply List.map_congr_left
          intro e _
          simp [FloatVal.scale]
      _ = List.replicate x.length (FloatVal.fin 0) := List.map_const' x _
  · have h0 : max (1 - gamma / norm2 x) 0 = 1 - gamma / norm2 x := max_eq_left (by
      have h1 : gamma / norm2 x < 1 := (div_lt_one hr).mpr hlt
      linarith)
    rw [hone]
    unfold proxGroup
    rw [hfac, h0]
    apply List.map_congr_left
    intro e _
    simp [FloatVal.scale]
  · rw [hone]
    unfold proxGroup
    simp

/-- Witness for C7 on the single group (3, 4) of norm 5 at the boundary
threshold gamma = 5: the output is the zero vector and the length is
preserved. -/
theorem claim_C7_witness :
    0 < norm2 [(3 : ℝ), 4] ∧
    prox12norm [(3 : ℝ), 4] 5 2 = [FloatVal.fin 0, FloatVal.fin 0] ∧
    (prox12norm [(3 : ℝ), 4] 5 2).length = 2 := by
  have hs : ((List.map (fun a => a * a) [(3 : ℝ), 4]).sum) = 25 := by
    simp
    norm_num
  have h5 : norm2 [(3 : ℝ), 4] = 5 := by
    unfold norm2
    rw [hs, show (25 : ℝ) = 5 ^ 2 by norm_num, Real.sqrt_sq (by norm_num : (0 : ℝ) ≤ 5)]
  have hthm := claim_C7_single_group [(3 : ℝ), 4] 2 5 (by norm_num) (by simp)
    (by rw [h5]; norm_num)
  refine ⟨by rw [h5]; norm_num, ?_, by simpa using hthm.2.2⟩
  have := hthm.1 (by rw [h5])
  simpa using this

/-- The norm of the two-entry zero vector is zero. -/
theorem norm2_pair_zero : norm2 [(0 : ℝ), 0] = 0 := by
  simp [norm2]

/-- A vector with a nonzero entry has nonzero norm. -/
theorem norm2_ne_zero_of_mem (v : List ℝ) (a : ℝ) (ha : a ∈ v) (h : a ≠ 0) :
    norm2 v ≠ 0 := by
  simp only [ne_eq, norm2_eq_zero_iff]
  push_neg
  exact ⟨a, ha, h⟩

/-- Counterexample to C5 at the boundary threshold gamma = 0: on the
zero-norm group (0, 0) the source computes 0.0 / 0.0 = NaN, and
np.maximum propagates NaN, so the output entries are NaN rather than
zero — the claim fails for the threshold gamma = 0 that it includes. -/
theorem claim_C5_counterexample :
    prox12norm [(0 : ℝ), 0] 0 2 = [FloatVal.nan, FloatVal.nan] ∧
    FloatVal.nan ≠ FloatVal.fin 0 := by
  constructor
  · have hgr : toGroups 2 [(0 : ℝ), 0] = [[(0 : ℝ), 0]] := by
      simp [toGroups]
    unfold prox12norm proxGroup proxFactor
    rw [hgr]
    simp [norm2_pair_zero, FloatVal.fdiv, FloatVal.oneSub, FloatVal.max0, FloatVal.scale]
  · simp

/-- Amended C5: for every strictly positive threshold gamma the claim
holds — no output entry is NaN (every shrinkage factor is finite), the
factor assigned to a zero norm is exactly 0, and a zero-norm group is
mapped to the all-zero group of its own length. -/
theorem claim_C5_amended_pos_threshold (x : List ℝ) (gamma : ℝ) (d : ℕ) (hg : 0 < gamma) :
    (∀ v ∈ prox12norm x gamma d, v ≠ FloatVal.nan) ∧
    proxFactor gamma 0 = FloatVal.fin 0 ∧
    (∀ g ∈ toGroups d x, norm2 g = 0 →
      proxGroup gamma g = List.replicate g.length (FloatVal.fin 0)) := by
  refine ⟨?_, ?_, ?_⟩
  · intro v hv
    unfold prox12norm at hv
    rw [List.mem_flatten] at hv
    obtain ⟨gl, hgl, hvgl⟩ := hv
    rw [List.mem_map] at hgl
    obtain ⟨g, _, rfl⟩ := hgl
    unfold proxGroup at hvgl
    rw [List.mem_map] at hvgl
    obtain ⟨e, _, rfl⟩ := hvgl
    obtain ⟨c, hc⟩ := proxFactor_fin_of_pos gamma (norm2 g) hg
    rw [hc]
    simp [FloatVal.scale]
  · unfold proxFactor FloatVal.fdiv
    rw [if_neg (by simp), if_pos hg]
    rfl
  · intro g _ hz
    have hall : ∀ a ∈ g, a = 0 := (norm2_eq_zero_iff g).mp hz
    unfold proxGroup proxFactor FloatVal.fdiv
    rw [hz, if_neg (by simp), if_pos hg]
    simp only [FloatVal.oneSub, FloatVal.max0]
    calc g.map (FloatVal.scale (FloatVal.fin 0))
        = g.map (fun _ => FloatVal.fin 0) := by
          apply List.map_congr_left
          intro a ha
          rw [hall a ha]
          simp [FloatVal.scale]
      _ = List.replicate g.length (FloatVal.fin 0) := List.map_const' g _

/-- Witness for amended C5 on (0, 0, 3, 4) with threshold 1: the
zero-norm first group is sent to (0, 0) by the factor 0, and no NaN
appears anywhere in the output. -/
theorem claim_C5_witness :
    (∀ v ∈ prox12norm [(0 : ℝ), 0, 3, 4] 1 2, v ≠ FloatVal.nan) ∧
    proxFactor 1 0 = FloatVal.fin 0 ∧
    norm2 [(0 : ℝ), 0] = 0 ∧
    proxGroup 1 [(0 : ℝ), 0] = [FloatVal.fin 0, FloatVal.fin 0] := by
  have h := claim_C5_amended_pos_threshold [(0 : ℝ), 0, 3, 4] 1 2 one_pos
  have hmem : [(0 : ℝ), 0] ∈ toGroups 2 [(0 : ℝ), 0, 3, 4] := by
    simp [toGroups]
  refine ⟨h.1, h.2.1, norm2_pair_zero, ?_⟩
  have := h.2.2 [(0 : ℝ), 0] hmem norm2_pair_zero
  simpa using this

/-- Counterexample to C8: prox(x, 0) is not x when x contains a group
of norm zero — on (1, 1, 0, 0) with d = 2 the second group produces the
NaN factor 0.0 / 0.0 and the output disagrees with x there. -/
theorem claim_C8_counterexample :
    prox12norm [(1 : ℝ), 1, 0, 0] 0 2 ≠ [(1 : ℝ), 1, 0, 0].map FloatVal.fin := by
  have hgr : toGroups 2 [(1 : ℝ), 1, 0, 0] = [[(1 : ℝ), 1], [0, 0]] := by
    simp [toGroups]
  have hpos : norm2 [(1 : ℝ), 1] ≠ 0 :=
    norm2_ne_zero_of_mem [(1 : ℝ), 1] 1 (by simp) one_ne_zero
  have hL : prox12norm [(1 : ℝ), 1, 0, 0] 0 2 =
      [FloatVal.fin 1, FloatVal.fin 1, FloatVal.nan, FloatVal.nan] := by
    unfold prox12norm proxGroup proxFactor
    rw [hgr]
    simp [norm2_pair_zero, FloatVal.fdiv, hpos, FloatVal.oneSub, FloatVal.max0,
      FloatVal.scale]
  rw [hL]
  simp

/-- Amended C8: prox(x, 0) = x holds exactly on inputs all of whose
groups have nonzero norm; for such x the factor of every group is
max(1 - 0, 0) = 1 and every entry is returned unchanged. -/
theorem claim_C8_amended_zero_threshold (x : List ℝ) (d : ℕ)
    (h : ∀ g ∈ toGroups d x, norm2 g ≠ 0) :
    prox12norm x 0 d = x.map FloatVal.fin := by
  conv_rhs => rw [← toGroups_flatten d x]
  unfold prox12norm
  rw [List.map_flatten]
  congr 1
  apply List.map_congr_left
  intro g hg
  have hr := h g hg
  unfold proxGroup proxFactor FloatVal.fdiv
  rw [if_pos hr]
  simp only [FloatVal.oneSub, FloatVal.max0, zero_div]
  apply List.map_congr_left
  intro e _
  norm_num [FloatVal.scale]

/-- Witness for amended C8 on the single nonzero-norm group (6, 8):
the zero-threshold prox returns the input unchanged. -/
theorem claim_C8_witness :
    (∀ g ∈ toGroups 2 [(6 : ℝ), 8], norm2 g ≠ 0) ∧
    prox12norm [(6 : ℝ), 8] 0 2 = [FloatVal.fin 6, FloatVal.fin 8] := by
  have hg : toGroups 2 [(6 : ℝ), 8] = [[(6 : ℝ), 8]] := by
    simp [toGroups]
  have hnz : ∀ g ∈ toGroups 2 [(6 : ℝ), 8], norm2 g ≠ 0 := by
    rw [hg]
    intro g hgm
    rw [List.mem_singleton] at hgm
    subst hgm
    exact norm2_ne_zero_of_mem [(6 : ℝ), 8] 6 (by simp) (by norm_num)
  refine ⟨hnz, ?_⟩
  have := claim_C8_amended_zero_threshold [(6 : ℝ), 8] 2 hnz
  simpa using this

/-- Outcome of one lscgnm call.  ok carries the returned pair: an
optional coefficient vector (None is the infeasibility sentinel) and
the returned gamma as an extended real (-1 for infeasible, +inf for the
trivial zero solution, a finite midpoint otherwise).  nameError records
the NameError raised by the final return statement when the bisection
loop body never assigned x_opt.  diverge records that one of the two
while-loops was still running when the fuel bound of the embedding ran
out; a result of diverge for every fuel proves the source loops
forever. -/
inductive LscgnmResult where
  | ok (x : Option (List ℝ)) (gamma : EReal)
  | nameError
  | diverge

/-- The Lipschitz constant computed by lscgnm:
np.linalg.norm(A.T @ A, ord=2). -/
def lscgnm_L (A : List (List ℝ)) : ℝ := spectralNorm (matMul A.transpose A)

/-- One inner APGD solve, the lambda-expression pattern repeated at
every gamma trial of the source: apgd on the least-squares gradient of
(A, y) and the group proximal operator with group size d, keeping only
the coefficient vector. -/
def lscgnm_trial (A : List (List ℝ)) (y : List ℝ) (d : ℕ) (L : ℝ) (gnrls_x0 : List ℝ)
    (gnrls_tol : ℝ) (gnrls_maxit : ℕ) (gamma : ℝ) : List ℝ :=
  (apgd (fun x => grad_least_squares A x y) (fun x t => prox12normR x t d)
    gamma L gnrls_x0 gnrls_tol gnrls_maxit).1

/-- The residual np.linalg.norm(A @ x - y) of the trial at one gamma. -/
def lscgnm_resid (A : List (List ℝ)) (y : List ℝ) (d : ℕ) (L : ℝ) (gnrls_x0 : List ℝ)
    (gnrls_tol : ℝ) (gnrls_maxit : ℕ) (gamma : ℝ) : ℝ :=
  norm2 (subv (matVec A (lscgnm_trial A y d L gnrls_x0 gnrls_tol gnrls_maxit gamma)) y)

/-- The baseline residual sigma0 of lscgnm: the residual of the APGD
solve at the negligible weight gamma0 = 1e-6. -/
def lscgnm_sigma0 (A : List (List ℝ)) (y : List ℝ) (d : ℕ) (gnrls_x0 : List ℝ)
    (gnrls_tol : ℝ) (gnrls_maxit : ℕ) : ℝ :=
  lscgnm_resid A y d (lscgnm_L A) gnrls_x0 gnrls_tol gnrls_maxit (1e-6 : ℝ)

/-- The gamma-doubling bracketing loop of lscgnm: while True, solve at
gamma_u, break with gamma_u as soon as the residual exceeds sigma,
otherwise double gamma_u.  The source loop has no iteration cap; the
fuel argument only bounds the unrolling of this embedding, and none
records that the loop was still running when the fuel ran out. -/
def lscgnm_doubling (A : List (List ℝ)) (y : List ℝ) (d : ℕ) (L : ℝ) (gnrls_x0 : List ℝ)
    (gnrls_tol : ℝ) (gnrls_maxit : ℕ) (sigma : ℝ) : ℝ → ℕ → Option ℝ
  | _, 0 => none
  | gu, n + 1 =>
    if sigma < lscgnm_resid A y d L gnrls_x0 gnrls_tol gnrls_maxit gu then some gu
    else lscgnm_doubling A y d L gnrls_x0 gnrls_tol gnrls_maxit sigma (2 * gu) n

/-- The return statement after the bisection loop: return x_opt,
gamma_star with gamma_star the midpoint of the final bracket.  The
variable x_opt is only assigned inside the loop body, so if the body
never ran the name is unbound and the return raises NameError. -/
def lscgnm_finish (gl gu : ℝ) (xopt : Option (List ℝ)) : LscgnmResult :=
  match xopt with
  | some x => .ok (some x) (((gl + gu) / 2 : ℝ) : EReal)
  | none => .nameError

/-- The bisection loop of lscgnm: while gamma_u - gamma_l > tol, solve
at the midpoint, move the admissible bound, and remember the midpoint
iterate in x_opt; on exit fall through to the return statement. -/
def lscgnm_bisection (A : List (List ℝ)) (y : List ℝ) (d : ℕ) (L : ℝ) (gnrls_x0 : List ℝ)
    (gnrls_tol : ℝ) (gnrls_maxit : ℕ) (sigma tol : ℝ) :
    ℝ → ℝ → Option (List ℝ) → ℕ → LscgnmResult
  | gl, gu, xopt, 0 => if tol < gu - gl then .diverge else lscgnm_finish gl gu xopt
  | gl, gu, xopt, n + 1 =>
    if tol < gu - gl then
      let mid := (gl + gu) / 2
      let xo := lscgnm_trial A y d L gnrls_x0 gnrls_tol gnrls_maxit mid
      if norm2 (subv (matVec A xo) y) < sigma then
        lscgnm_bisection A y d L gnrls_x0 gnrls_tol gnrls_maxit sigma tol mid gu (some xo) n
      else
        lscgnm_bisection A y d L gnrls_x0 gnrls_tol gnrls_maxit sigma tol gl mid (some xo) n
    else lscgnm_finish gl gu xopt

/-- Source lscgnm: solve at gamma0 = 1e-6 for the baseline residual
sigma0; if sigma < sigma0 return the infeasibility sentinel
(None, -1); if sigma is at least the norm of y return the zero vector
and +inf; otherwise bracket gamma by doubling from 1 and bisect on
[0, gamma_u] down to bracket width tol.  The fuel argument bounds the
unrolling of the two while-loops of the embedding. -/
def lscgnm (A : List (List ℝ)) (y : List ℝ) (sigma : ℝ) (d : ℕ) (tol : ℝ)
    (gnrls_x0 : List ℝ) (gnrls_tol : ℝ) (gnrls_maxit : ℕ) (fuel : ℕ) : LscgnmResult :=
  if lscgnm_sigma0 A y d gnrls_x0 gnrls_tol gnrls_maxit ≤ sigma then
    if norm2 y ≤ sigma then
      .ok (some (List.replicate (numCols A) (0 : ℝ))) ⊤
    else
      match lscgnm_doubling A y d (lscgnm_L A) gnrls_x0 gnrls_tol gnrls_maxit sigma 1 fuel with
      | none => .diverge
      | some gu =>
        lscgnm_bisection A y d (lscgnm_L A) gnrls_x0 gnrls_tol gnrls_maxit sigma tol
          0 gu none fuel
  else .ok none ((-1 : ℝ) : EReal)

/-- Nontermination of the doubling loop, as a proposition: some fuel
bound suffices for the loop to break. -/
def lscgnm_doublingTerminates (A : List (List ℝ)) (y : List ℝ) (d : ℕ) (L : ℝ)
    (gnrls_x0 : List ℝ) (gnrls_tol : ℝ) (gnrls_maxit : ℕ) (sigma gu : ℝ) : Prop :=
  ∃ n, (lscgnm_doubling A y d L gnrls_x0 gnrls_tol gnrls_maxit sigma gu n).isSome

/-- With an iteration budget of zero the apgd loop never runs and the
initial iterate comes back with the sentinel count 1. -/
theorem apgd_maxit_zero (gradf : List ℝ → List ℝ) (proxf : List ℝ → ℝ → List ℝ)
    (gamma L : ℝ) (x0 : List ℝ) (tol : ℝ) :
    apgd gradf proxf gamma L x0 tol 0 = (x0, 1) := rfl

/-- With gnrls_maxit = 0 every inner solve returns gnrls_x0, so the
residual at every gamma is the residual of the initial iterate. -/
theorem lscgnm_resid_gmaxit_zero (A : List (List ℝ)) (y : List ℝ) (d : ℕ) (L : ℝ)
    (gnrls_x0 : List ℝ) (gnrls_tol : ℝ) (gamma : ℝ) :
    lscgnm_resid A y d L gnrls_x0 gnrls_tol 0 gamma = norm2 (subv (matVec A gnrls_x0) y) := rfl

/-- With gnrls_maxit = 0 the baseline residual is the residual of the
initial iterate. -/
theorem lscgnm_sigma0_gmaxit_zero (A : List (List ℝ)) (y : List ℝ) (d : ℕ)
    (gnrls_x0 : List ℝ) (gnrls_tol : ℝ) :
    lscgnm_sigma0 A y d gnrls_x0 gnrls_tol 0 = norm2 (subv (matVec A gnrls_x0) y) := rfl

/-- When the bracket is already no wider than tol the bisection loop
body never runs, for any fuel: the call falls through to the return
statement. -/
theorem lscgnm_bisection_skip (A : List (List ℝ)) (y : List ℝ) (d : ℕ) (L : ℝ)
    (gnrls_x0 : List ℝ) (gnrls_tol : ℝ) (gnrls_maxit : ℕ) (sigma tol gl gu : ℝ)
    (xopt : Option (List ℝ)) (h : ¬ tol < gu - gl) (fuel : ℕ) :
    lscgnm_bisection A y d L gnrls_x0 gnrls_tol gnrls_maxit sigma tol gl gu xopt fuel =
      lscgnm_finish gl gu xopt := by
  cases fuel with
  | zero =>
    rw [lscgnm_bisection, if_neg h]
  | succ n =>
    rw [lscgnm_bisection, if_neg h]

/-- Claim C1: whenever the requested sigma is strictly below the
baseline residual sigma0 of the APGD solve at gamma0 = 1e-6, lscgnm
takes the infeasibility branch and returns the explicit sentinel
(None, -1) instead of an approximate answer. -/
theorem claim_C1_infeasible_sentinel (A : List (List ℝ)) (y : List ℝ) (sigma : ℝ) (d : ℕ)
    (tol : ℝ) (gnrls_x0 : List ℝ) (gnrls_tol : ℝ) (gnrls_maxit fuel : ℕ)
    (h : sigma < lscgnm_sigma0 A y d gnrls_x0 gnrls_tol gnrls_maxit) :
    lscgnm A y sigma d tol gnrls_x0 gnrls_tol gnrls_maxit fuel =
      LscgnmResult.ok none ((-1 : ℝ) : EReal) := by
  unfold lscgnm
  rw [if_neg (not_le.mpr h)]

/-- On the 1x1 dictionary [[1]], observation [1] and initial iterate
[0] with gnrls_maxit = 0, the baseline residual sigma0 is 1. -/
theorem sigma0_unit_eval : lscgnm_sigma0 [[(1 : ℝ)]] [1] 1 [0] 1 0 = 1 := by
  rw [lscgnm_sigma0_gmaxit_zero]
  rw [show subv (matVec [[(1 : ℝ)]] [0]) [1] = [(-1 : ℝ)] from by
    simp [matVec, dotv, subv]]
  rw [norm2_single]
  norm_num

/-- Witness for C1: sigma = 0 is below the baseline residual 1 of the
concrete instance, and lscgnm returns (None, -1) there. -/
theorem claim_C1_witness :
    (0 : ℝ) < lscgnm_sigma0 [[(1 : ℝ)]] [1] 1 [0] 1 0 ∧
    lscgnm [[(1 : ℝ)]] [1] 0 1 1 [0] 1 0 1 = LscgnmResult.ok none ((-1 : ℝ) : EReal) := by
  constructor
  · rw [sigma0_unit_eval]
    norm_num
  · exact claim_C1_infeasible_sentinel [[(1 : ℝ)]] [1] 0 1 1 [0] 1 0 1
      (by rw [sigma0_unit_eval]; norm_num)

/-- Counterexample to C2: sigma = 2 equals the norm of y = [2], yet
with initial iterate [5] and gnrls_maxit = 0 the baseline residual is
3 > sigma, so the sigma >= sigma0 test that the source runs first
fails and the call returns the (None, -1) sentinel, not the claimed
zero vector with +inf. -/
theorem claim_C2_counterexample :
    norm2 [(2 : ℝ)] ≤ 2 ∧
    lscgnm [[(1 : ℝ)]] [2] 2 1 1 [5] 1 0 1 = LscgnmResult.ok none ((-1 : ℝ) : EReal) ∧
    LscgnmResult.ok none ((-1 : ℝ) : EReal) ≠
      LscgnmResult.ok (some (List.replicate (numCols [[(1 : ℝ)]]) (0 : ℝ))) ⊤ := by
  have hs : lscgnm_sigma0 [[(1 : ℝ)]] [2] 1 [5] 1 0 = 3 := by
    rw [lscgnm_sigma0_gmaxit_zero]
    rw [show subv (matVec [[(1 : ℝ)]] [5]) [2] = [(3 : ℝ)] from by
      simp [matVec, dotv, subv]
      norm_num]
    rw [norm2_single]
    norm_num
  refine ⟨by rw [norm2_single]; norm_num, ?_, by simp⟩
  unfold lscgnm
  rw [hs, if_neg (by norm_num)]

/-- Amended C2: when sigma is at least the norm of y AND at least the
baseline residual sigma0 (the test the source runs first), lscgnm
returns the all-zero vector of length A.shape[1] together with
gamma = +inf.  The counterexample shows the extra sigma0 condition is
needed: the source only reaches the trivial-solution branch through
the sigma >= sigma0 test, and sigma0 can exceed the norm of y when the
inner solver is given a bad initial iterate or iteration budget. -/
theorem claim_C2_amended_trivial (A : List (List ℝ)) (y : List ℝ) (sigma : ℝ) (d : ℕ)
    (tol : ℝ) (gnrls_x0 : List ℝ) (gnrls_tol : ℝ) (gnrls_maxit fuel : ℕ)
    (h0 : lscgnm_sigma0 A y d gnrls_x0 gnrls_tol gnrls_maxit ≤ sigma)
    (h1 : norm2 y ≤ sigma) :
    lscgnm A y sigma d tol gnrls_x0 gnrls_tol gnrls_maxit fuel =
      LscgnmResult.ok (some (List.replicate (numCols A) (0 : ℝ))) ⊤ := by
  unfold lscgnm
  rw [if_pos h0, if_pos h1]

/-- Witness for amended C2: at sigma = 1 = sigma0 = the norm of y, the
call returns the zero vector of length 1 with gamma = +inf. -/
theorem claim_C2_witness :
    lscgnm_sigma0 [[(1 : ℝ)]] [1] 1 [0] 1 0 ≤ 1 ∧ norm2 [(1 : ℝ)] ≤ 1 ∧
    lscgnm [[(1 : ℝ)]] [1] 1 1 1 [0] 1 0 1 =
      LscgnmResult.ok (some (List.replicate (numCols [[(1 : ℝ)]]) (0 : ℝ))) ⊤ := by
  have h0 : lscgnm_sigma0 [[(1 : ℝ)]] [1] 1 [0] 1 0 ≤ 1 := by
    rw [sigma0_unit_eval]
  have h1 : norm2 [(1 : ℝ)] ≤ 1 := by
    rw [norm2_single]
    norm_num
  exact ⟨h0, h1, claim_C2_amended_trivial [[(1 : ℝ)]] [1] 1 1 1 [0] 1 0 1 h0 h1⟩

/-- On the 1x1 dictionary [[1]], observation [2] and initial iterate
[1] with gnrls_maxit = 0, every gamma trial returns the initial iterate
and the residual is constantly 1. -/
theorem resid_const_c6 (gamma : ℝ) :
    lscgnm_resid [[(1 : ℝ)]] [2] 1 (lscgnm_L [[(1 : ℝ)]]) [1] 1 0 gamma = 1 := by
  rw [lscgnm_resid_gmaxit_zero]
  rw [show subv (matVec [[(1 : ℝ)]] [1]) [2] = [(-1 : ℝ)] from by
    simp [matVec, dotv, subv]
    norm_num]
  rw [norm2_single]
  norm_num

/-- Counterexample to C6: the doubling loop of the source is a bare
while True with no iteration cap; on the concrete instance whose
residual is constantly 1 <= sigma = 3/2 the break condition never
fires, so no fuel bound makes the loop terminate — there is no cap and
no reported solver error. -/
theorem claim_C6_counterexample :
    ¬ lscgnm_doublingTerminates [[(1 : ℝ)]] [2] 1 (lscgnm_L [[(1 : ℝ)]]) [1] 1 0 (3 / 2) 1 := by
  rintro ⟨n, hn⟩
  have hall : ∀ m gu,
      lscgnm_doubling [[(1 : ℝ)]] [2] 1 (lscgnm_L [[(1 : ℝ)]]) [1] 1 0 (3 / 2) gu m = none := by
    intro m
    induction m with
    | zero => intro gu; rfl
    | succ m ih =>
      intro gu
      rw [lscgnm_doubling, if_neg (by rw [resid_const_c6]; norm_num)]
      exact ih (2 * gu)
  rw [hall n 1] at hn
  simp at hn

/-- Amended C6: the doubling loop has no iteration cap.  Whenever the
residual-versus-gamma curve never rises above sigma (a flat or
non-monotonic curve) while the two guarding branch tests are passed,
the loop never breaks, and lscgnm fails to terminate for every fuel
bound of the embedding, reporting no solver error. -/
theorem claim_C6_amended_no_cap (A : List (List ℝ)) (y : List ℝ) (sigma : ℝ) (d : ℕ)
    (tol : ℝ) (gnrls_x0 : List ℝ) (gnrls_tol : ℝ) (gnrls_maxit : ℕ)
    (hall : ∀ g : ℝ, lscgnm_resid A y d (lscgnm_L A) gnrls_x0 gnrls_tol gnrls_maxit g ≤ sigma)
    (h0 : lscgnm_sigma0 A y d gnrls_x0 gnrls_tol gnrls_maxit ≤ sigma)
    (h1 : sigma < norm2 y) :
    ∀ fuel, lscgnm A y sigma d tol gnrls_x0 gnrls_tol gnrls_maxit fuel =
      LscgnmResult.diverge := by
  have hdn : ∀ n gu,
      lscgnm_doubling A y d (lscgnm_L A) gnrls_x0 gnrls_tol gnrls_maxit sigma gu n = none := by
    intro n
    induction n with
    | zero => intro gu; rfl
    | succ n ih =>
      intro gu
      rw [lscgnm_doubling, if_neg (not_lt.mpr (hall gu))]
      exact ih (2 * gu)
  intro fuel
  unfold lscgnm
  rw [if_pos h0, if_neg (not_le.mpr h1), hdn fuel 1]

/-- Witness for amended C6 on the flat-residual instance: the branch
conditions hold and lscgnm diverges at the concrete fuel 3. -/
theorem claim_C6_witness :
    (∀ g : ℝ, lscgnm_resid [[(1 : ℝ)]] [2] 1 (lscgnm_L [[(1 : ℝ)]]) [1] 1 0 g ≤ 3 / 2) ∧
    lscgnm_sigma0 [[(1 : ℝ)]] [2] 1 [1] 1 0 ≤ 3 / 2 ∧
    (3 / 2 : ℝ) < norm2 [(2 : ℝ)] ∧
    lscgnm [[(1 : ℝ)]] [2] (3 / 2) 1 1 [1] 1 0 3 = LscgnmResult.diverge := by
  have hall : ∀ g : ℝ,
      lscgnm_resid [[(1 : ℝ)]] [2] 1 (lscgnm_L [[(1 : ℝ)]]) [1] 1 0 g ≤ 3 / 2 := by
    intro g
    rw [resid_const_c6]
    norm_num
  have h0 : lscgnm_sigma0 [[(1 : ℝ)]] [2] 1 [1] 1 0 ≤ 3 / 2 := by
    unfold lscgnm_sigma0
    rw [resid_const_c6]
    norm_num
  have h1 : (3 / 2 : ℝ) < norm2 [(2 : ℝ)] := by
    rw [norm2_single]
    norm_num
  exact ⟨hall, h0, h1, claim_C6_amended_no_cap [[(1 : ℝ)]] [2] (3 / 2) 1 1 [1] 1 0 hall h0 h1 3⟩

/-- The spectral norm of the 1x1 matrix [[1]] is 1: the image of the
unit sphere of length-1 vectors under v -> norm(M v) is {1}. -/
theorem spectralNorm_unit : spectralNorm [[(1 : ℝ)]] = 1 := by
  unfold spectralNorm
  have himg : (fun v => norm2 (matVec [[(1 : ℝ)]] v)) ''
      {v : List ℝ | v.length = numCols [[(1 : ℝ)]] ∧ norm2 v = 1} = {1} := by
    ext r
    simp only [Set.mem_image, Set.mem_setOf_eq, Set.mem_singleton_iff]
    constructor
    · rintro ⟨v, ⟨hlen, hn⟩, heq⟩
      have hlen1 : v.length = 1 := by simpa [numCols] using hlen
      obtain ⟨a, rfl⟩ := List.length_eq_one.mp hlen1
      rw [norm2_single] at hn
      have hmv : matVec [[(1 : ℝ)]] [a] = [a] := by
        simp [matVec, dotv]
      rw [hmv, norm2_single, hn] at heq
      exact heq.symm
    · rintro rfl
      refine ⟨[1], ⟨by simp [numCols], by rw [norm2_single]; norm_num⟩, ?_⟩
      have hmv : matVec [[(1 : ℝ)]] [(1 : ℝ)] = [1] := by
        simp [matVec, dotv]
      rw [hmv, norm2_single]
      norm_num
  rw [himg]
  exact csSup_singleton 1

/-- A.T @ A for the 1x1 matrix [[1]]. -/
theorem matMulT_unit : matMul (List.transpose [[(1 : ℝ)]]) [[(1 : ℝ)]] = [[(1 : ℝ)]] := by
  unfold matMul
  rw [show List.transpose [[(1 : ℝ)]] = [[(1 : ℝ)]] from rfl]
  simp [dotv]

/-- The Lipschitz constant computed by lscgnm on the dictionary [[1]]. -/
theorem lscgnm_L_unit : lscgnm_L [[(1 : ℝ)]] = 1 := by
  unfold lscgnm_L
  rw [matMulT_unit]
  exact spectralNorm_unit

/-- The real-valued proximal operator on the one-entry group [1]. -/
theorem prox_single_one (t : ℝ) : prox12normR [(1 : ℝ)] t 1 = [max (1 - t) 0] := by
  unfold prox12normR
  rw [show toGroups 1 [(1 : ℝ)] = [[(1 : ℝ)]] from by simp [toGroups]]
  simp [norm2_single]

/-- The least-squares gradient at the origin for the unit instance. -/
theorem grad_unit_eval : grad_least_squares [[(1 : ℝ)]] [0] [1] = [(-1 : ℝ)] := by
  unfold grad_least_squares
  rw [show List.transpose [[(1 : ℝ)]] = [[(1 : ℝ)]] from rfl]
  simp [matVec, dotv, subv]

/-- One apgd iteration on the unit instance from the origin produces
the candidate prox(0 + grad step, gamma) = [max(1 - gamma, 0)]. -/
theorem apgdStep_c9 (g : ℝ) :
    (apgdStep (fun x => grad_least_squares [[(1 : ℝ)]] x [1])
      (fun x t => prox12normR x t 1) g 1 ([0], [0], 1)).1 = [max (1 - g) 0] := by
  unfold apgdStep
  simp only [grad_unit_eval]
  rw [show smulv (1 / 1) [(-1 : ℝ)] = [(-1 : ℝ)] from by simp [smulv]]
  rw [show subv [(0 : ℝ)] [(-1 : ℝ)] = [(1 : ℝ)] from by norm_num [subv]]
  rw [show g * (1 / 1) = g from by norm_num]
  exact prox_single_one g

/-- The apgd call made by lscgnm on the unit instance with one
iteration allowed: the first candidate already passes the convergence
test, so the solver returns it with count 0. -/
theorem apgd_c9 (g : ℝ) (hg : max (1 - g) 0 ≤ 1) :
    apgd (fun x => grad_least_squares [[(1 : ℝ)]] x [1]) (fun x t => prox12normR x t 1)
      g 1 [0] 1 1 = ([max (1 - g) 0], 0) := by
  unfold apgd
  rw [show apgdGo (fun x => grad_least_squares [[(1 : ℝ)]] x [1])
        (fun x t => prox12normR x t 1) g 1 1 1 ([(0 : ℝ)], [(0 : ℝ)], (1 : ℝ)) 0 1 =
      (if norm2 (subv (apgdStep (fun x => grad_least_squares [[(1 : ℝ)]] x [1])
          (fun x t => prox12normR x t 1) g 1 ([(0 : ℝ)], [(0 : ℝ)], (1 : ℝ))).1 [(0 : ℝ)]) ≤ 1
        then ((apgdStep (fun x => grad_least_squares [[(1 : ℝ)]] x [1])
          (fun x t => prox12normR x t 1) g 1 ([(0 : ℝ)], [(0 : ℝ)], (1 : ℝ))).1, 0)
        else apgdGo (fun x => grad_least_squares [[(1 : ℝ)]] x [1])
          (fun x t => prox12normR x t 1) g 1 1 1
          (apgdStep (fun x => grad_least_squares [[(1 : ℝ)]] x [1])
            (fun x t => prox12normR x t 1) g 1 ([(0 : ℝ)], [(0 : ℝ)], (1 : ℝ))) 1 0) from rfl]
  rw [apgdStep_c9 g]
  rw [show subv [max (1 - g) 0] [(0 : ℝ)] = [max (1 - g) 0] from by simp [subv]]
  rw [norm2_single, abs_of_nonneg (le_max_right _ _)]
  rw [if_pos hg]

/-- The gamma trial of lscgnm on the unit instance. -/
theorem trial_c9 (g : ℝ) (hg : max (1 - g) 0 ≤ 1) :
    lscgnm_trial [[(1 : ℝ)]] [1] 1 1 [0] 1 1 g = [max (1 - g) 0] := by
  unfold lscgnm_trial
  rw [apgd_c9 g hg]

/-- The residual of the gamma trial of lscgnm on the unit instance. -/
theorem resid_c9 (g : ℝ) (hg : max (1 - g) 0 ≤ 1) :
    lscgnm_resid [[(1 : ℝ)]] [1] 1 1 [0] 1 1 g = |max (1 - g) 0 - 1| := by
  unfold lscgnm_resid
  rw [trial_c9 g hg]
  rw [show subv (matVec [[(1 : ℝ)]] [max (1 - g) 0]) [1] = [max (1 - g) 0 - 1] from by
    simp [matVec, dotv, subv]]
  rw [norm2_single]

/-- Claim C9: when the doubling phase breaks at its very first trial
gamma_u = 1 (the residual at gamma = 1 already exceeds sigma) and the
bracket [0, 1] is no wider than tol, the bisection loop body never
runs, the variable x_opt is never assigned, and the return statement
raises NameError instead of returning a coefficient vector. -/
theorem claim_C9_bisection_nameerror (A : List (List ℝ)) (y : List ℝ) (sigma : ℝ) (d : ℕ)
    (tol : ℝ) (gnrls_x0 : List ℝ) (gnrls_tol : ℝ) (gnrls_maxit fuel : ℕ)
    (h0 : lscgnm_sigma0 A y d gnrls_x0 gnrls_tol gnrls_maxit ≤ sigma)
    (h1 : sigma < norm2 y)
    (h2 : sigma < lscgnm_resid A y d (lscgnm_L A) gnrls_x0 gnrls_tol gnrls_maxit 1)
    (h3 : 1 ≤ tol) (hfuel : 0 < fuel) :
    lscgnm A y sigma d tol gnrls_x0 gnrls_tol gnrls_maxit fuel = LscgnmResult.nameError := by
  obtain ⟨n, rfl⟩ : ∃ n, fuel = n + 1 := ⟨fuel - 1, by omega⟩
  unfold lscgnm
  rw [if_pos h0, if_neg (not_le.mpr h1)]
  rw [show lscgnm_doubling A y d (lscgnm_L A) gnrls_x0 gnrls_tol gnrls_maxit sigma 1 (n + 1) =
      some 1 from by rw [lscgnm_doubling, if_pos h2]]
  show lscgnm_bisection A y d (lscgnm_L A) gnrls_x0 gnrls_tol gnrls_maxit sigma tol
      0 1 none (n + 1) = LscgnmResult.nameError
  rw [lscgnm_bisection_skip A y d (lscgnm_L A) gnrls_x0 gnrls_tol gnrls_maxit sigma tol 0 1 none
    (not_lt.mpr (by linarith : (1 : ℝ) - 0 ≤ tol)) (n + 1)]
  rfl

/-- Witness for C9 on the unit instance with gnrls_maxit = 1, sigma =
1/2, tol = 2: sigma0 = 1e-6 is below sigma, the first doubling trial at
gamma = 1 has residual 1 > sigma, the bracket [0, 1] is narrower than
tol = 2, and lscgnm raises NameError. -/
theorem claim_C9_witness :
    lscgnm_sigma0 [[(1 : ℝ)]] [1] 1 [0] 1 1 ≤ 1 / 2 ∧
    (1 / 2 : ℝ) < norm2 [(1 : ℝ)] ∧
    (1 / 2 : ℝ) < lscgnm_resid [[(1 : ℝ)]] [1] 1 (lscgnm_L [[(1 : ℝ)]]) [0] 1 1 1 ∧
    lscgnm [[(1 : ℝ)]] [1] (1 / 2) 1 2 [0] 1 1 1 = LscgnmResult.nameError := by
  have h0 : lscgnm_sigma0 [[(1 : ℝ)]] [1] 1 [0] 1 1 ≤ 1 / 2 := by
    unfold lscgnm_sigma0
    rw [lscgnm_L_unit]
    rw [resid_c9 (1e-6) (by rw [max_le_iff]; constructor <;> norm_num)]
    rw [max_eq_left (by norm_num : (0 : ℝ) ≤ 1 - 1e-6)]
    rw [show |(1 : ℝ) - 1e-6 - 1| = 1e-6 from by
      rw [abs_of_nonpos (by norm_num)]
      norm_num]
    norm_num
  have h1 : (1 / 2 : ℝ) < norm2 [(1 : ℝ)] := by
    rw [norm2_single]
    norm_num
  have h2 : (1 / 2 : ℝ) < lscgnm_resid [[(1 : ℝ)]] [1] 1 (lscgnm_L [[(1 : ℝ)]]) [0] 1 1 1 := by
    rw [lscgnm_L_unit]
    rw [resid_c9 1 (by rw [max_le_iff]; constructor <;> norm_num)]
    rw [show max (1 - (1 : ℝ)) 0 = 0 from by rw [sub_self, max_self]]
    rw [show |(0 : ℝ) - 1| = 1 from by rw [abs_of_nonpos (by norm_num)]; norm_num]
    norm_num
  exact ⟨h0, h1, h2, claim_C9_bisection_nameerror [[(1 : ℝ)]] [1] (1 / 2) 1 2 [0] 1 1 1
    h0 h1 h2 (by norm_num) (by norm_num)⟩

/-- Source get_piano_keys: the 88 equal-tempered piano fundamentals
27.5 * 2^(i/12). -/
def get_piano_keys : List ℝ :=
  (List.range 88).map (fun i => 27.5 * (2 : ℝ) ^ ((i : ℝ) / 12))

/-- Source get_A: the dictionary with rows j = 0..l-1 and, for each
frequency f, the adjacent column pair cos(2 pi f j / f_s),
sin(2 pi f j / f_s). -/
def get_A (frequencies : List ℝ) (f_s : ℝ) (l : ℕ) : List (List ℝ) :=
  (List.range l).map (fun j =>
    (frequencies.map (fun f =>
      [Real.cos (2 * Real.pi * f * (j : ℝ) / f_s),
       Real.sin (2 * Real.pi * f * (j : ℝ) / f_s)])).flatten)

/-- Source apgd_driver: build the piano dictionary and its Lipschitz
constant once, then run apgd from the zero initial iterate
np.zeros(A.shape[1]) on each block the loop visits, collecting the
coefficient vectors.  The loop header is
for i, y in enumerate(data[:-1]), so the final block of data is never
visited.  A.shape[1] is 2 * 88 by the np.zeros((l, 2*len(frequencies)))
construction inside get_A, independent of l. -/
def apgd_driver (data : List (List ℝ)) (f_s : ℝ) (l d : ℕ) (gamma tol : ℝ)
    (maxit : ℕ) : List (List ℝ) :=
  let f := get_piano_keys
  let A := get_A f f_s l
  let L := spectralNorm (matMul A.transpose A)
  let x0 : List ℝ := List.replicate (2 * f.length) 0
  data.dropLast.map (fun y =>
    (apgd (fun x => grad_least_squares A x y) (fun x t => prox12normR x t d)
      gamma L x0 tol maxit).1)

/-- Counterexample to C4: on a sequence of two blocks the driver
returns a single coefficient vector, not one per block — the loop
iterates data[:-1] and skips the final block. -/
theorem claim_C4_counterexample :
    (apgd_driver [[(1 : ℝ)], [2]] 1000 1 2 4 (1e-6) 100000).length ≠
      ([[(1 : ℝ)], [2]] : List (List ℝ)).length := by
  simp [apgd_driver]

/-- Amended C4: the driver solves one block per element of data[:-1] —
every block except the final one — each time restarting apgd from the
zero initial iterate of length A.shape[1], and returns exactly one
coefficient vector per visited block: the output has length
len(data) - 1 and its i-th entry is the apgd solve of the i-th block. -/
theorem claim_C4_amended_drops_last (data : List (List ℝ)) (f_s : ℝ) (l d : ℕ)
    (gamma tol : ℝ) (maxit : ℕ) (i : ℕ) (hi : i < data.length - 1) :
    (apgd_driver data f_s l d gamma tol maxit).length = data.length - 1 ∧
    (apgd_driver data f_s l d gamma tol maxit)[i]? =
      (data[i]?).map (fun y =>
        (apgd (fun x => grad_least_squares (get_A get_piano_keys f_s l) x y)
          (fun x t => prox12normR x t d) gamma
          (spectralNorm (matMul (get_A get_piano_keys f_s l).transpose
            (get_A get_piano_keys f_s l)))
          (List.replicate (2 * get_piano_keys.length) 0) tol maxit).1) := by
  constructor
  · simp [apgd_driver]
  · simp only [apgd_driver, List.getElem?_map]
    rw [List.dropLast_eq_take, List.getElem?_take_of_lt hi]

/-- Witness for amended C4 on two concrete blocks at index 0: the
output length is 1 and entry 0 is the zero-started apgd solve of the
first block. -/
theorem claim_C4_witness :
    (apgd_driver [[(1 : ℝ)], [2]] 1000 1 2 4 (1e-6) 100000).length = 1 ∧
    (apgd_driver [[(1 : ℝ)], [2]] 1000 1 2 4 (1e-6) 100000)[0]? =
      (([[(1 : ℝ)], [2]] : List (List ℝ))[0]?).map (fun y =>
        (apgd (fun x => grad_least_squares (get_A get_piano_keys 1000 1) x y)
          (fun x t => prox12normR x t 2) 4
          (spectralNorm (matMul (get_A get_piano_keys 1000 1).transpose
            (get_A get_piano_keys 1000 1)))
          (List.replicate (2 * get_piano_keys.length) 0) (1e-6) 100000).1) := by
  have h := claim_C4_amended_drops_last [[(1 : ℝ)], [2]] 1000 1 2 4 (1e-6) 100000 0 (by simp)
  exact ⟨by simpa using h.1, h.2⟩

end
